import Mathlib

/-!
Verification of the matchscore repository: a shallow embedding of the
match-result engine (`MatchResultUpdater.ts`, `MatchResultParser.ts`) and the
budget proration engine (`Budget.ts`, `Period.ts`, `BudgetManager`), with
theorems settling the specification's claims.

Match-result strings are embedded as `List Char`; the numeric TS `Event` enum
is embedded as `Nat` so that unrecognized tags are representable; throwing TS
functions return `Except`.  Dayjs dates are embedded at day granularity as
integer day numbers (the code compares and diffs dates with the `day` unit).
-/

namespace MatchScore

/-- `Event.HomeGoal` from the TS numeric enum in `MatchResultUpdater.ts`. -/
def Event.HomeGoal : Nat := 1

/-- `Event.AwayGoal` from the TS numeric enum. -/
def Event.AwayGoal : Nat := 2

/-- `Event.CancelHomeGoal` from the TS numeric enum. -/
def Event.CancelHomeGoal : Nat := 3

/-- `Event.CancelAwayGoal` from the TS numeric enum. -/
def Event.CancelAwayGoal : Nat := 4

/-- `Event.NextPeriod` from the TS numeric enum. -/
def Event.NextPeriod : Nat := 5

/-- `UpdateMatchResultException` (`MatchResultUpdater.ts` lines 17-30): carries
the triggering event and the original, pre-mutation match-result string. -/
structure UpdateMatchResultException where
  event : Nat
  originalMatchResult : List Char
  message : String
deriving Repr, DecidableEq

/-- The backward scan loop of `cancelHomeGoal` / `cancelAwayGoal`
(`for (let i = ...; i >= lo; i--) if (s[i] === c) break`): starting at index
`n` and moving down, return the first index `i >= lo` with `s[i] = c`. -/
def backwardFind (s : List Char) (c : Char) (lo : Nat) : Nat → Option Nat
  | 0 => if lo = 0 ∧ s[0]? = some c then some 0 else none
  | n + 1 =>
    if n + 1 < lo then none
    else if s[n + 1]? = some c then some (n + 1)
    else backwardFind s c lo n

/-- Index of the last occurrence of `c` in a list, used to state the spec's
"scan from the end; the first matching target character found". -/
def lastIdxOf (c : Char) : List Char → Option Nat
  | [] => none
  | x :: xs =>
    match lastIdxOf c xs with
    | some i => some (i + 1)
    | none => if x = c then some 0 else none

/-- The cancellation-search index as the spec's words describe it (§4.1
steps 1-4): if `s` has no `;`, the last occurrence of `target` in `s`; if `s`
has a `;`, the last occurrence strictly after the first `;`, and failing that
the single character immediately preceding that `;` provided it equals
`target`; `none` when no eligible occurrence exists. -/
def specCancelIndex (target : Char) (s : List Char) : Option Nat :=
  match s.findIdx? (fun c => c = ';') with
  | none => lastIdxOf target s
  | some si =>
    match lastIdxOf target (s.drop (si + 1)) with
    | some j => some (si + 1 + j)
    | none =>
      if 0 < si ∧ s[si - 1]? = some target then some (si - 1) else none

/-- `cancelHomeGoal` (`MatchResultUpdater.ts` lines 88-133): empty input is an
error; otherwise locate the first `;` (`indexOf`), scan backward for the last
`H` (restricted to indices strictly after the `;` when one exists, with the
char-before-`;` fallback), and excise the found index via
`substring(0, i) + substring(i + 1)`. -/
def cancelHomeGoal (matchResult : List Char) (event : Nat) :
    Except UpdateMatchResultException (List Char) :=
  if matchResult = [] then
    .error ⟨event, matchResult, "Cannot cancel home goal: no match data available"⟩
  else
    let lastHIndex : Option Nat :=
      match matchResult.findIdx? (fun c => c = ';') with
      | none => backwardFind matchResult 'H' 0 (matchResult.length - 1)
      | some semicolonIndex =>
        match backwardFind matchResult 'H' (semicolonIndex + 1) (matchResult.length - 1) with
        | some i => some i
        | none =>
          if 0 < semicolonIndex ∧ matchResult[semicolonIndex - 1]? = some 'H' then
            some (semicolonIndex - 1)
          else none
    match lastHIndex with
    | none =>
      .error ⟨event, matchResult, "Cannot cancel home goal: no H found to cancel"⟩
    | some i => .ok (matchResult.take i ++ matchResult.drop (i + 1))

/-- `cancelAwayGoal` (`MatchResultUpdater.ts` lines 142-187): identical to
`cancelHomeGoal` with target character `A`. -/
def cancelAwayGoal (matchResult : List Char) (event : Nat) :
    Except UpdateMatchResultException (List Char) :=
  if matchResult = [] then
    .error ⟨event, matchResult, "Cannot cancel away goal: no match data available"⟩
  else
    let lastAIndex : Option Nat :=
      match matchResult.findIdx? (fun c => c = ';') with
      | none => backwardFind matchResult 'A' 0 (matchResult.length - 1)
      | some semicolonIndex =>
        match backwardFind matchResult 'A' (semicolonIndex + 1) (matchResult.length - 1) with
        | some i => some i
        | none =>
          if 0 < semicolonIndex ∧ matchResult[semicolonIndex - 1]? = some 'A' then
            some (semicolonIndex - 1)
          else none
    match lastAIndex with
    | none =>
      .error ⟨event, matchResult, "Cannot cancel away goal: no A found to cancel"⟩
    | some i => .ok (matchResult.take i ++ matchResult.drop (i + 1))

/-- `updateMatchResult` (`MatchResultUpdater.ts` lines 40-79), the spec's
`applyEvent`: append `H` / `A` for goals, delegate cancels, append `;` for
`NextPeriod` unless one is already present, and fail on an unknown event tag.
The `matchId` parameter is unused by the TS code, as here. -/
def updateMatchResult (matchId : Int) (event : Nat) (currentMatchResult : List Char) :
    Except UpdateMatchResultException (List Char) :=
  if event = Event.HomeGoal then .ok (currentMatchResult ++ ['H'])
  else if event = Event.AwayGoal then .ok (currentMatchResult ++ ['A'])
  else if event = Event.CancelHomeGoal then cancelHomeGoal currentMatchResult event
  else if event = Event.CancelAwayGoal then cancelAwayGoal currentMatchResult event
  else if event = Event.NextPeriod then
    if ';' ∈ currentMatchResult then .ok currentMatchResult
    else .ok (currentMatchResult ++ [';'])
  else .error ⟨event, currentMatchResult, "Unknown event"⟩

/-- Result record of `getMatchStatistics` (`MatchResultParser.ts` lines 64-107). -/
structure MatchStatistics where
  homeGoals : Nat
  awayGoals : Nat
  totalGoals : Nat
  isSecondHalf : Bool
  displayResult : String
deriving Repr, DecidableEq

/-- One iteration of the counting loop shared by `parseMatchResultToDisplay`
and `getMatchStatistics`: `H` bumps home goals, `A` bumps away goals, `;` sets
the second-half flag, every other character is ignored. -/
def tallyStep (acc : Nat × Nat × Bool) (c : Char) : Nat × Nat × Bool :=
  if c = 'H' then (acc.1 + 1, acc.2.1, acc.2.2)
  else if c = 'A' then (acc.1, acc.2.1 + 1, acc.2.2)
  else if c = ';' then (acc.1, acc.2.1, true)
  else acc

/-- `parseMatchResultToDisplay` (`MatchResultParser.ts` lines 16-47), the
spec's `parseToDisplay`: a total function producing
`"home:away (First Half | Second Half)"`.  The TS try/catch is dead code (the
loop body cannot throw) and has no counterpart here. -/
def parseMatchResultToDisplay (matchResult : List Char) : String :=
  let t := matchResult.foldl tallyStep (0, 0, false)
  let half := if t.2.2 then "Second Half" else "First Half"
  toString t.1 ++ ":" ++ toString t.2.1 ++ " (" ++ half ++ ")"

/-- `getMatchStatistics` (`MatchResultParser.ts` lines 64-107): the same
counting loop, returning the structured statistics record. -/
def getMatchStatistics (matchResult : List Char) : MatchStatistics :=
  let t := matchResult.foldl tallyStep (0, 0, false)
  { homeGoals := t.1
    awayGoals := t.2.1
    totalGoals := t.1 + t.2.1
    isSecondHalf := t.2.2
    displayResult := parseMatchResultToDisplay matchResult }

/-- Gregorian leap-year test, as the calendar library (dayjs) computes it. -/
def isLeapYear (y : Nat) : Bool :=
  (y % 4 = 0 && y % 100 ≠ 0) || y % 400 = 0

/-- Number of days in calendar month `m` of year `y` (the dayjs calendar). -/
def daysInMonth (y m : Nat) : Nat :=
  if m = 2 then (if isLeapYear y then 29 else 28)
  else if m = 4 ∨ m = 6 ∨ m = 9 ∨ m = 11 then 30
  else 31

/-- Days in year `y` before the first day of month `m`. -/
def daysBeforeMonth (y : Nat) : Nat → Nat
  | 0 => 0
  | 1 => 0
  | m + 2 => daysBeforeMonth y (m + 1) + daysInMonth y (m + 1)

/-- Leap days occurring in years strictly before year `y`. -/
def leapDaysBefore (y : Nat) : Nat :=
  (y - 1) / 4 - (y - 1) / 100 + (y - 1) / 400

/-- Day number of the calendar date `y-m-d`: the day-granularity embedding of a
dayjs date.  Dates compare (`isAfter`, `isSameOrBefore` with unit `day`) as
their day numbers compare, and `a.diff(b, day)` is the day-number difference. -/
def dayNumber (y m d : Nat) : Int :=
  365 * (y : Int) + (leapDaysBefore y : Int) + (daysBeforeMonth y m : Int) + (d : Int)

/-- `Budget` (`Budget.ts`): the validated `YearMonth` string (6 digits,
`YYYYMM`, denoting a calendar month) is embedded as its `year` and `month`
components; `Amount` is an integer. -/
structure Budget where
  year : Nat
  month : Nat
  amount : Int
deriving Repr, DecidableEq

/-- The `Budget` class invariant: `YearMonth` denotes a valid calendar
year/month (6 digits, so a 4-digit year, and a real month). -/
def Budget.Valid (b : Budget) : Prop :=
  1 ≤ b.month ∧ b.month ≤ 12 ∧ 1 ≤ b.year ∧ b.year ≤ 9999

instance (b : Budget) : Decidable b.Valid := by
  unfold Budget.Valid; infer_instance

/-- `Budget.firstDay` (`Budget.ts`): `dayjs(YearMonth)`, the first day of the
budget month. -/
def Budget.firstDay (b : Budget) : Int := dayNumber b.year b.month 1

/-- `Budget.lastDay` (`Budget.ts`): `firstDay().endOf(month)`, the last day of
the budget month. -/
def Budget.lastDay (b : Budget) : Int :=
  dayNumber b.year b.month (daysInMonth b.year b.month)

/-- `Budget.daysOfBudget` (`Budget.ts` lines 103-105):
`lastDay().diff(firstDay(), day) + 1`. -/
def Budget.daysOfBudget (b : Budget) : Int := b.lastDay - b.firstDay + 1

/-- `Budget.dailyAmount` (`Budget.ts` lines 111-113):
`Amount / daysOfBudget()`, with real (here rational) division. -/
def Budget.dailyAmount (b : Budget) : ℚ :=
  (b.amount : ℚ) / ((b.daysOfBudget : Int) : ℚ)

/-- `Period` (`Period.ts`): a start and end date, embedded as day numbers.
The `end` field is named `endD` because `end` is reserved in Lean. -/
structure Period where
  start : Int
  endD : Int
deriving Repr, DecidableEq

/-- The `Period.ts` constructor (lines 27-30): stores the two dates with no
validation. -/
def Period.new (start endD : Int) : Period := ⟨start, endD⟩

/-- The constructor of the second `Period` class in the repository (the
variant concatenated into `MatchResultParser.ts`, lines 134-141): throws when
`start.isAfter(end)`, otherwise stores the dates. -/
def Period.make (start endD : Int) : Except String Period :=
  if endD < start then
    .error "Invalid period: start date must be before or equal to end date"
  else .ok ⟨start, endD⟩

/-- `Budget.createPeriod` (`Budget.ts` lines 24-26): the `Period` spanning the
budget month, the spec's `budget.monthPeriod()`. -/
def Budget.monthPeriod (b : Budget) : Period := ⟨b.firstDay, b.lastDay⟩

/-- `Period.overlappingDays` (`Period.ts` lines 13-23): overlap in days
between this period and a budget's month; the guard is
`budget.firstDay().isSameOrBefore(this.end) && budget.lastDay().isSameOrAfter(this.start)`,
the effective bounds are the later start and the earlier end, and the result
is `effectiveEnd.diff(effectiveStart, day) + 1`, else `0`. -/
def Period.overlappingDays (p : Period) (budget : Budget) : Int :=
  if budget.firstDay ≤ p.endD ∧ p.start ≤ budget.lastDay then
    (if p.endD < budget.lastDay then p.endD else budget.lastDay) -
      (if budget.firstDay < p.start then p.start else budget.firstDay) + 1
  else 0

/-- `Period.overlappingDay` (the `Period` variant in `MatchResultParser.ts`,
lines 246-257): the same computation for two periods. -/
def Period.overlappingDay (p anotherPeriod : Period) : Int :=
  if anotherPeriod.start ≤ p.endD ∧ p.start ≤ anotherPeriod.endD then
    (if p.endD < anotherPeriod.endD then p.endD else anotherPeriod.endD) -
      (if anotherPeriod.start < p.start then p.start else anotherPeriod.start) + 1
  else 0

/-- `Budget.overlappingAmount` (`Budget.ts` lines 17-19):
`dailyAmount() * period.overlappingDays(this.createPeriod())`. -/
def Budget.overlappingAmount (b : Budget) (period : Period) : ℚ :=
  b.dailyAmount * ((period.overlappingDays b : Int) : ℚ)

/-- `BudgetManager.QueryTotalAmount` (`src/unnamed/part_000` lines 34-56):
reject an inverted range (`start.isAfter(end)`) up front, then sum
`overlappingAmount(new Period(start, end))` over all budgets with
`map(...).reduce((sum, amount) => sum + amount, 0)`.  The budget list comes
from the external `budgetService.getAll()` store and is a parameter here. -/
def QueryTotalAmount (budgets : List Budget) (start endD : Int) : Except String ℚ :=
  if endD < start then
    .error "Invalid date range: start date must be before or equal to end date"
  else
    .ok ((budgets.map (fun budget => budget.overlappingAmount (Period.new start endD))).foldl
      (fun sum amount => sum + amount) 0)

/-! ### Helper lemmas: backward scans and last occurrences -/

theorem lastIdxOf_getElem (c : Char) :
    ∀ (t : List Char) (i : Nat), lastIdxOf c t = some i → t[i]? = some c := by
  intro t
  induction t with
  | nil => simp [lastIdxOf]
  | cons x xs ih =>
    intro i h
    simp only [lastIdxOf] at h
    cases hx : lastIdxOf c xs with
    | some k =>
      rw [hx] at h
      simp only [Option.some.injEq] at h
      subst h
      simpa using ih k hx
    | none =>
      rw [hx] at h
      split_ifs at h with hxc
      simp only [Option.some.injEq] at h
      subst h
      simp [hxc]

theorem lastIdxOf_none (c : Char) :
    ∀ (t : List Char), lastIdxOf c t = none ↔ ∀ (j : Nat), t[j]? ≠ some c := by
  intro t
  induction t with
  | nil => simp [lastIdxOf]
  | cons x xs ih =>
    simp only [lastIdxOf]
    cases hx : lastIdxOf c xs with
    | some k =>
      simp only [reduceCtorEq, false_iff, not_forall]
      exact ⟨k + 1, by simpa using lastIdxOf_getElem c xs k hx⟩
    | none =>
      split_ifs with hxc
      · subst hxc
        simp only [reduceCtorEq, false_iff, not_forall]
        exact ⟨0, by simp⟩
      · simp only [true_iff]
        intro j
        cases j with
        | zero => simpa using fun hcontra => hxc hcontra
        | succ j' => simpa using (ih.mp hx) j'

theorem lastIdxOf_maximal (c : Char) :
    ∀ (t : List Char) (i : Nat), lastIdxOf c t = some i →
      ∀ j, i < j → t[j]? ≠ some c := by
  intro t
  induction t with
  | nil => simp [lastIdxOf]
  | cons x xs ih =>
    intro i h j hij
    simp only [lastIdxOf] at h
    cases hx : lastIdxOf c xs with
    | some k =>
      rw [hx] at h
      simp only [Option.some.injEq] at h
      subst h
      obtain ⟨j', rfl⟩ : ∃ j', j = j' + 1 := ⟨j - 1, by omega⟩
      simpa using ih k hx j' (by omega)
    | none =>
      rw [hx] at h
      split_ifs at h with hxc
      simp only [Option.some.injEq] at h
      subst h
      obtain ⟨j', rfl⟩ : ∃ j', j = j' + 1 := ⟨j - 1, by omega⟩
      simpa using (lastIdxOf_none c xs).mp hx j'

theorem backwardFind_some (s : List Char) (c : Char) (lo : Nat) :
    ∀ (n i : Nat), backwardFind s c lo n = some i →
      lo ≤ i ∧ i ≤ n ∧ s[i]? = some c ∧
        ∀ j, i < j → j ≤ n → s[j]? ≠ some c := by
  intro n
  induction n with
  | zero =>
    intro i h
    simp only [backwardFind] at h
    split_ifs at h with hc
    simp only [Option.some.injEq] at h
    subst h
    exact ⟨by omega, by omega, hc.2, by omega⟩
  | succ n ih =>
    intro i h
    simp only [backwardFind] at h
    split_ifs at h with h1 h2
    · simp only [Option.some.injEq] at h
      subst h
      exact ⟨by omega, by omega, h2, by omega⟩
    · obtain ⟨hlo, hle, hc, hmax⟩ := ih i h
      refine ⟨hlo, by omega, hc, fun j hij hj => ?_⟩
      rcases Nat.lt_or_ge j (n + 1) with hj' | hj'
      · exact hmax j hij (by omega)
      · have : j = n + 1 := by omega
        subst this
        exact h2

theorem backwardFind_none (s : List Char) (c : Char) (lo : Nat) :
    ∀ (n : Nat), backwardFind s c lo n = none ↔
      ∀ j, lo ≤ j → j ≤ n → s[j]? ≠ some c := by
  intro n
  induction n with
  | zero =>
    simp only [backwardFind]
    split_ifs with hc
    · simp only [reduceCtorEq, false_iff, not_forall]
      exact ⟨0, by omega, by omega, by simp [hc.2]⟩
    · simp only [true_iff]
      intro j hlo hj
      have hj0 : j = 0 := by omega
      subst hj0
      intro hcontra
      exact hc ⟨by omega, hcontra⟩
  | succ n ih =>
    simp only [backwardFind]
    split_ifs with h1 h2
    · simp only [true_iff]
      intro j hlo hj
      omega
    · simp only [reduceCtorEq, false_iff, not_forall]
      exact ⟨n + 1, by omega, by omega, by simp [h2]⟩
    · rw [ih]
      constructor
      · intro hall j hlo hj
        rcases Nat.lt_or_ge j (n + 1) with hj' | hj'
        · exact hall j hlo (by omega)
        · have : j = n + 1 := by omega
          subst this
          exact h2
      · intro hall j hlo hj
        exact hall j hlo (by omega)

theorem backwardFind_eq_lastIdxOf (s : List Char) (c : Char) (lo : Nat) :
    backwardFind s c lo (s.length - 1) =
      (lastIdxOf c (s.drop lo)).map (fun j => lo + j) := by
  cases hL : lastIdxOf c (s.drop lo) with
  | none =>
    simp only [Option.map_none']
    rw [backwardFind_none]
    intro j hlo _ hcontra
    have h := (lastIdxOf_none c (s.drop lo)).mp hL (j - lo)
    rw [List.getElem?_drop] at h
    have hj : lo + (j - lo) = j := by omega
    rw [hj] at h
    exact h hcontra
  | some j =>
    simp only [Option.map_some']
    have hchar : s[lo + j]? = some c := by
      have h := lastIdxOf_getElem c (s.drop lo) j hL
      rwa [List.getElem?_drop] at h
    have hlt : lo + j < s.length := by
      obtain ⟨h, -⟩ := List.getElem?_eq_some_iff.mp hchar
      exact h
    cases hB : backwardFind s c lo (s.length - 1) with
    | none =>
      exfalso
      exact (backwardFind_none s c lo (s.length - 1)).mp hB (lo + j)
        (by omega) (by omega) hchar
    | some i =>
      obtain ⟨hloi, hile, hic, hmax⟩ := backwardFind_some s c lo (s.length - 1) i hB
      have h1 : i ≤ lo + j := by
        by_contra hcon
        push_neg at hcon
        have h := lastIdxOf_maximal c (s.drop lo) j hL (i - lo) (by omega)
        rw [List.getElem?_drop] at h
        have heq : lo + (i - lo) = i := by omega
        rw [heq] at h
        exact h hic
      have h2 : lo + j ≤ i := by
        by_contra hcon
        push_neg at hcon
        exact hmax (lo + j) (by omega) (by omega) hchar
      have : i = lo + j := by omega
      rw [this]

/-- The code's `cancelHomeGoal` is erase-at-the-spec-search-index: it removes
the character at `specCancelIndex H s` and keeps everything else, and fails
exactly when that index does not exist. -/
theorem cancelHomeGoal_eq (s : List Char) (ev : Nat) :
    cancelHomeGoal s ev =
      match specCancelIndex 'H' s with
      | some i => .ok (s.take i ++ s.drop (i + 1))
      | none =>
        if s = [] then
          .error ⟨ev, s, "Cannot cancel home goal: no match data available"⟩
        else
          .error ⟨ev, s, "Cannot cancel home goal: no H found to cancel"⟩ := by
  by_cases hs : s = []
  · subst hs
    rfl
  · simp only [cancelHomeGoal, specCancelIndex]
    rw [if_neg hs]
    cases hf : s.findIdx? (fun c => c = ';') with
    | none =>
      have hBr := backwardFind_eq_lastIdxOf s 'H' 0
      rw [List.drop_zero] at hBr
      cases hL : lastIdxOf 'H' s with
      | none =>
        rw [hL] at hBr
        simp only [Option.map_none'] at hBr
        simp [hBr, hs]
      | some i =>
        rw [hL] at hBr
        simp only [Option.map_some'] at hBr
        simp [hBr]
    | some si =>
      have hBr := backwardFind_eq_lastIdxOf s 'H' (si + 1)
      cases hL : lastIdxOf 'H' (s.drop (si + 1)) with
      | none =>
        rw [hL] at hBr
        simp only [Option.map_none'] at hBr
        simp only [hBr, hL]
        split_ifs with hc
        · simp
        · simp [hs]
      | some j =>
        rw [hL] at hBr
        simp only [Option.map_some'] at hBr
        simp [hBr, hL]

/-- The code's `cancelAwayGoal` is erase-at-the-spec-search-index for `A`. -/
theorem cancelAwayGoal_eq (s : List Char) (ev : Nat) :
    cancelAwayGoal s ev =
      match specCancelIndex 'A' s with
      | some i => .ok (s.take i ++ s.drop (i + 1))
      | none =>
        if s = [] then
          .error ⟨ev, s, "Cannot cancel away goal: no match data available"⟩
        else
          .error ⟨ev, s, "Cannot cancel away goal: no A found to cancel"⟩ := by
  by_cases hs : s = []
  · subst hs
    rfl
  · simp only [cancelAwayGoal, specCancelIndex]
    rw [if_neg hs]
    cases hf : s.findIdx? (fun c => c = ';') with
    | none =>
      have hBr := backwardFind_eq_lastIdxOf s 'A' 0
      rw [List.drop_zero] at hBr
      cases hL : lastIdxOf 'A' s with
      | none =>
        rw [hL] at hBr
        simp only [Option.map_none'] at hBr
        simp [hBr, hs]
      | some i =>
        rw [hL] at hBr
        simp only [Option.map_some'] at hBr
        simp [hBr]
    | some si =>
      have hBr := backwardFind_eq_lastIdxOf s 'A' (si + 1)
      cases hL : lastIdxOf 'A' (s.drop (si + 1)) with
      | none =>
        rw [hL] at hBr
        simp only [Option.map_none'] at hBr
        simp only [hBr, hL]
        split_ifs with hc
        · simp
        · simp [hs]
      | some j =>
        rw [hL] at hBr
        simp only [Option.map_some'] at hBr
        simp [hBr, hL]

/-- The spec search index always points at the target character. -/
theorem specCancelIndex_getElem (target : Char) (s : List Char) (i : Nat)
    (h : specCancelIndex target s = some i) : s[i]? = some target := by
  unfold specCancelIndex at h
  split at h
  · exact lastIdxOf_getElem target s i h
  · rename_i si hf
    split at h
    · rename_i j hL
      simp only [Option.some.injEq] at h
      subst h
      have hg := lastIdxOf_getElem target (s.drop (si + 1)) j hL
      rwa [List.getElem?_drop] at hg
    · rename_i hL
      split_ifs at h with hc
      simp only [Option.some.injEq] at h
      subst h
      exact hc.2

/-- `updateMatchResult` dispatch: the `CancelHomeGoal` branch. -/
theorem updateMatchResult_cancelHome (mid : Int) (s : List Char) :
    updateMatchResult mid Event.CancelHomeGoal s = cancelHomeGoal s Event.CancelHomeGoal := rfl

/-- `updateMatchResult` dispatch: the `CancelAwayGoal` branch. -/
theorem updateMatchResult_cancelAway (mid : Int) (s : List Char) :
    updateMatchResult mid Event.CancelAwayGoal s = cancelAwayGoal s Event.CancelAwayGoal := rfl

/-- `updateMatchResult` dispatch: the `HomeGoal` branch. -/
theorem updateMatchResult_home (mid : Int) (s : List Char) :
    updateMatchResult mid Event.HomeGoal s = .ok (s ++ ['H']) := rfl

/-- `updateMatchResult` dispatch: the `AwayGoal` branch. -/
theorem updateMatchResult_away (mid : Int) (s : List Char) :
    updateMatchResult mid Event.AwayGoal s = .ok (s ++ ['A']) := rfl

/-- `updateMatchResult` dispatch: the `NextPeriod` branch. -/
theorem updateMatchResult_next (mid : Int) (s : List Char) :
    updateMatchResult mid Event.NextPeriod s =
      if ';' ∈ s then .ok s else .ok (s ++ [';']) := rfl

/-- Appending one element on the right shifts `findIdx?` as expected. -/
theorem findIdx?_append_one (p : Char → Bool) (x : Char) :
    ∀ (t : List Char) (i : Nat),
      List.findIdx? p (t ++ [x]) i =
        match List.findIdx? p t i with
        | some j => some j
        | none => if p x then some (i + t.length) else none := by
  intro t
  induction t with
  | nil =>
    intro i
    simp [List.findIdx?_cons, List.findIdx?_nil]
  | cons y ys ih =>
    intro i
    simp only [List.cons_append, List.findIdx?_cons]
    by_cases hy : p y
    · simp [hy]
    · simp only [hy, Bool.false_eq_true, if_false, ih (i + 1)]
      cases hf : List.findIdx? p ys (i + 1) with
      | some j => simp
      | none =>
        simp only [List.length_cons]
        split_ifs with hx
        · have : i + 1 + ys.length = i + (ys.length + 1) := by omega
          rw [this]
        · rfl

/-- A found index is within bounds (relative to the running start index). -/
theorem findIdx?_lt_length (p : Char → Bool) :
    ∀ (t : List Char) (i j : Nat),
      List.findIdx? p t i = some j → i ≤ j ∧ j < i + t.length := by
  intro t
  induction t with
  | nil => simp [List.findIdx?_nil]
  | cons y ys ih =>
    intro i j h
    rw [List.findIdx?_cons] at h
    split_ifs at h with hy
    · simp only [Option.some.injEq] at h
      subst h
      simp
    · obtain ⟨h1, h2⟩ := ih (i + 1) j h
      constructor <;> [omega; (simp only [List.length_cons]; omega)]

/-- The last occurrence in `t ++ [c]` of `c` itself is at index `t.length`. -/
theorem lastIdxOf_concat (c : Char) :
    ∀ (t : List Char), lastIdxOf c (t ++ [c]) = some t.length := by
  intro t
  induction t with
  | nil => simp [lastIdxOf]
  | cons x xs ih => simp [lastIdxOf, ih]

/-- Appending the target character to any string puts the spec's cancellation
index exactly on the appended character. -/
theorem specCancelIndex_concat (c : Char) (hc : c ≠ ';') (s : List Char) :
    specCancelIndex c (s ++ [c]) = some s.length := by
  unfold specCancelIndex
  rw [findIdx?_append_one]
  cases hf : List.findIdx? (fun ch => decide (ch = ';')) s 0 with
  | none =>
    simp [hc, lastIdxOf_concat]
  | some si =>
    simp only
    obtain ⟨-, hsi⟩ := findIdx?_lt_length _ s 0 si hf
    rw [List.drop_append_of_le_length (by omega), lastIdxOf_concat]
    simp only [List.length_drop, Option.some.injEq]
    omega

/-- Fold characterization of the parser counting loop. -/
theorem foldl_tallyStep (s : List Char) :
    ∀ (h a : Nat) (b : Bool),
      s.foldl tallyStep (h, a, b) =
        (h + s.count 'H', a + s.count 'A', b || decide (';' ∈ s)) := by
  induction s with
  | nil => intro h a b; simp
  | cons c cs ih =>
    intro h a b
    simp only [List.foldl_cons]
    by_cases h1 : c = 'H'
    · subst h1
      rw [show tallyStep (h, a, b) 'H' = (h + 1, a, b) from rfl, ih]
      simp [List.count_cons]
      omega
    · by_cases h2 : c = 'A'
      · subst h2
        rw [show tallyStep (h, a, b) 'A' = (h, a + 1, b) from rfl, ih]
        simp [List.count_cons]
        omega
      · by_cases h3 : c = ';'
        · subst h3
          rw [show tallyStep (h, a, b) ';' = (h, a, true) from rfl, ih]
          simp [List.count_cons]
        · have hstep : tallyStep (h, a, b) c = (h, a, b) := by
            unfold tallyStep
            rw [if_neg h1, if_neg h2, if_neg h3]
          rw [hstep, ih]
          simp [List.count_cons, h1, h2, h3, Ne.symm h1, Ne.symm h2, Ne.symm h3]

/-! ### Claims -/

/-- C1: `updateMatchResult` with `CancelHomeGoal` (resp. `CancelAwayGoal`)
removes exactly one `H` (resp. `A`) at the index selected by the spec's
search (`specCancelIndex`): the removed position holds the target character,
the result is `take i ++ drop (i+1)` (all other characters kept in place and
order), and the operation fails when no such occurrence exists (including the
empty string). -/
theorem claim_C1 (mid : Int) (s : List Char) :
    (∀ i, specCancelIndex 'H' s = some i →
        s[i]? = some 'H' ∧
        updateMatchResult mid Event.CancelHomeGoal s =
          .ok (s.take i ++ s.drop (i + 1))) ∧
    (specCancelIndex 'H' s = none →
        ∃ e, updateMatchResult mid Event.CancelHomeGoal s = .error e) ∧
    (∀ i, specCancelIndex 'A' s = some i →
        s[i]? = some 'A' ∧
        updateMatchResult mid Event.CancelAwayGoal s =
          .ok (s.take i ++ s.drop (i + 1))) ∧
    (specCancelIndex 'A' s = none →
        ∃ e, updateMatchResult mid Event.CancelAwayGoal s = .error e) := by
  refine ⟨fun i hi => ⟨specCancelIndex_getElem _ _ _ hi, ?_⟩, fun hn => ?_,
    fun i hi => ⟨specCancelIndex_getElem _ _ _ hi, ?_⟩, fun hn => ?_⟩
  · rw [updateMatchResult_cancelHome, cancelHomeGoal_eq]
    simp only [hi]
  · rw [updateMatchResult_cancelHome, cancelHomeGoal_eq]
    simp only [hn]
    split_ifs <;> exact ⟨_, rfl⟩
  · rw [updateMatchResult_cancelAway, cancelAwayGoal_eq]
    simp only [hi]
  · rw [updateMatchResult_cancelAway, cancelAwayGoal_eq]
    simp only [hn]
    split_ifs <;> exact ⟨_, rfl⟩

/-- Witness for C1 at the concrete input `HA;H`: the spec index is 3 and the
cancel removes that `H`. -/
theorem claim_C1_witness :
    (['H', 'A', ';', 'H'] : List Char)[3]? = some 'H' ∧
    updateMatchResult 0 Event.CancelHomeGoal ['H', 'A', ';', 'H'] =
      .ok ((['H', 'A', ';', 'H'] : List Char).take 3 ++
        (['H', 'A', ';', 'H'] : List Char).drop (3 + 1)) :=
  (claim_C1 0 ['H', 'A', ';', 'H']).1 3 (by decide)

/-- C2: `updateMatchResult` fails exactly when the event is a cancel event
with no eligible target character (including empty input) or an unrecognized
event tag; every raised error carries the triggering event and the original
pre-mutation string (the function is pure, so the input itself is unchanged
on failure); `applyEvent("HHA;", CancelHomeGoal)` fails with that event and
original; and `HomeGoal`, `AwayGoal`, `NextPeriod` never fail. -/
theorem claim_C2 (mid : Int) (ev : Nat) (s : List Char) :
    ((∃ err, updateMatchResult mid ev s = .error err) ↔
      (ev = Event.CancelHomeGoal ∧ specCancelIndex 'H' s = none) ∨
      (ev = Event.CancelAwayGoal ∧ specCancelIndex 'A' s = none) ∨
      (ev ≠ Event.HomeGoal ∧ ev ≠ Event.AwayGoal ∧ ev ≠ Event.CancelHomeGoal ∧
        ev ≠ Event.CancelAwayGoal ∧ ev ≠ Event.NextPeriod)) ∧
    (∀ err, updateMatchResult mid ev s = .error err →
      err.event = ev ∧ err.originalMatchResult = s) ∧
    updateMatchResult mid Event.CancelHomeGoal ['H', 'H', 'A', ';'] =
      .error ⟨Event.CancelHomeGoal, ['H', 'H', 'A', ';'],
        "Cannot cancel home goal: no H found to cancel"⟩ ∧
    (∃ t, updateMatchResult mid Event.HomeGoal s = .ok t) ∧
    (∃ t, updateMatchResult mid Event.AwayGoal s = .ok t) ∧
    (∃ t, updateMatchResult mid Event.NextPeriod s = .ok t) := by
  have herr : ∀ err, updateMatchResult mid ev s = .error err →
      err.event = ev ∧ err.originalMatchResult = s := by
    intro err h
    unfold updateMatchResult at h
    split_ifs at h with h1 h2 h3 h4 h5 h6
    · rw [cancelHomeGoal_eq] at h
      split at h
      · simp at h
      · split_ifs at h <;>
          (simp only [Except.error.injEq] at h; rw [← h]; exact ⟨rfl, rfl⟩)
    · rw [cancelAwayGoal_eq] at h
      split at h
      · simp at h
      · split_ifs at h <;>
          (simp only [Except.error.injEq] at h; rw [← h]; exact ⟨rfl, rfl⟩)
    · simp only [Except.error.injEq] at h
      rw [← h]
      exact ⟨rfl, rfl⟩
  have hiff : (∃ err, updateMatchResult mid ev s = .error err) ↔
      (ev = Event.CancelHomeGoal ∧ specCancelIndex 'H' s = none) ∨
      (ev = Event.CancelAwayGoal ∧ specCancelIndex 'A' s = none) ∨
      (ev ≠ Event.HomeGoal ∧ ev ≠ Event.AwayGoal ∧ ev ≠ Event.CancelHomeGoal ∧
        ev ≠ Event.CancelAwayGoal ∧ ev ≠ Event.NextPeriod) := by
    by_cases h1 : ev = Event.HomeGoal
    · subst h1
      rw [updateMatchResult_home]
      simp [Event.HomeGoal, Event.AwayGoal, Event.CancelHomeGoal,
        Event.CancelAwayGoal, Event.NextPeriod]
    · by_cases h2 : ev = Event.AwayGoal
      · subst h2
        rw [updateMatchResult_away]
        simp [Event.HomeGoal, Event.AwayGoal, Event.CancelHomeGoal,
          Event.CancelAwayGoal, Event.NextPeriod]
      · by_cases h3 : ev = Event.CancelHomeGoal
        · subst h3
          rw [updateMatchResult_cancelHome, cancelHomeGoal_eq]
          cases hsp : specCancelIndex 'H' s with
          | some i =>
            simp [hsp, Event.HomeGoal, Event.AwayGoal, Event.CancelHomeGoal,
              Event.CancelAwayGoal, Event.NextPeriod]
          | none =>
            refine iff_of_true ?_ (Or.inl ⟨rfl, rfl⟩)
            simp only [hsp]
            split_ifs <;> exact ⟨_, rfl⟩
        · by_cases h4 : ev = Event.CancelAwayGoal
          · subst h4
            rw [updateMatchResult_cancelAway, cancelAwayGoal_eq]
            cases hsp : specCancelIndex 'A' s with
            | some i =>
              simp [hsp, Event.HomeGoal, Event.AwayGoal, Event.CancelHomeGoal,
                Event.CancelAwayGoal, Event.NextPeriod]
            | none =>
              refine iff_of_true ?_ (Or.inr (Or.inl ⟨rfl, rfl⟩))
              simp only [hsp]
              split_ifs <;> exact ⟨_, rfl⟩
          · by_cases h5 : ev = Event.NextPeriod
            · subst h5
              rw [updateMatchResult_next]
              split_ifs with hm <;>
                simp [Event.HomeGoal, Event.AwayGoal, Event.CancelHomeGoal,
                  Event.CancelAwayGoal, Event.NextPeriod]
            · have hu : updateMatchResult mid ev s =
                  .error ⟨ev, s, "Unknown event"⟩ := by
                unfold updateMatchResult
                rw [if_neg h1, if_neg h2, if_neg h3, if_neg h4, if_neg h5]
              rw [hu]
              exact iff_of_true ⟨_, rfl⟩ (Or.inr (Or.inr ⟨h1, h2, h3, h4, h5⟩))
  refine ⟨hiff, herr, rfl, ⟨_, rfl⟩, ⟨_, rfl⟩, ?_⟩
  rw [updateMatchResult_next]
  split_ifs <;> exact ⟨_, rfl⟩

/-- Witness for C2: the failure condition evaluated at `CancelHomeGoal` on
`"A"` (no `H` anywhere), via the iff. -/
theorem claim_C2_witness :
    ∃ err, updateMatchResult 0 Event.CancelHomeGoal ['A'] = .error err :=
  ((claim_C2 0 Event.CancelHomeGoal ['A']).1).mpr (Or.inl ⟨rfl, by decide⟩)

/-- C7: the parser (`getMatchStatistics` / `parseMatchResultToDisplay`) is a
total function: home goals count the `H` occurrences, away goals the `A`
occurrences, the second-half flag holds iff some `;` occurs, all other
characters are ignored, the empty string decodes to zero goals in the first
half, and `"HHA;A"` decodes to 2:2 in the second half. -/
theorem claim_C7 (s : List Char) :
    (getMatchStatistics s).homeGoals = s.count 'H' ∧
    (getMatchStatistics s).awayGoals = s.count 'A' ∧
    ((getMatchStatistics s).isSecondHalf = true ↔ ';' ∈ s) ∧
    getMatchStatistics [] = ⟨0, 0, 0, false, "0:0 (First Half)"⟩ ∧
    (getMatchStatistics ['H', 'H', 'A', ';', 'A']).homeGoals = 2 ∧
    (getMatchStatistics ['H', 'H', 'A', ';', 'A']).awayGoals = 2 ∧
    (getMatchStatistics ['H', 'H', 'A', ';', 'A']).isSecondHalf = true ∧
    parseMatchResultToDisplay ['H', 'H', 'A', ';', 'A'] = "2:2 (Second Half)" := by
  have ht := foldl_tallyStep s 0 0 false
  refine ⟨?_, ?_, ?_, rfl, rfl, rfl, rfl, rfl⟩ <;>
    simp [getMatchStatistics, ht]

/-- Witness for C7 at the concrete input `"Hx;"`. -/
theorem claim_C7_witness :
    (getMatchStatistics ['H', 'x', ';']).homeGoals = ['H', 'x', ';'].count 'H' ∧
    (getMatchStatistics ['H', 'x', ';']).awayGoals = ['H', 'x', ';'].count 'A' ∧
    ((getMatchStatistics ['H', 'x', ';']).isSecondHalf = true ↔
      ';' ∈ ['H', 'x', ';']) ∧
    getMatchStatistics [] = ⟨0, 0, 0, false, "0:0 (First Half)"⟩ ∧
    (getMatchStatistics ['H', 'H', 'A', ';', 'A']).homeGoals = 2 ∧
    (getMatchStatistics ['H', 'H', 'A', ';', 'A']).awayGoals = 2 ∧
    (getMatchStatistics ['H', 'H', 'A', ';', 'A']).isSecondHalf = true ∧
    parseMatchResultToDisplay ['H', 'H', 'A', ';', 'A'] = "2:2 (Second Half)" :=
  claim_C7 ['H', 'x', ';']

/-- C8: for every string with no trailing `;` (the spec's side condition),
applying `HomeGoal` then `CancelHomeGoal` returns the string unchanged, and
symmetrically for `AwayGoal` / `CancelAwayGoal`: the cancel undoes the
immediately preceding matching goal in the simple append case. -/
theorem claim_C8 (mid : Int) (s : List Char) (hlast : s.getLast? ≠ some ';') :
    (updateMatchResult mid Event.HomeGoal s).bind
        (fun t => updateMatchResult mid Event.CancelHomeGoal t) = .ok s ∧
    (updateMatchResult mid Event.AwayGoal s).bind
        (fun t => updateMatchResult mid Event.CancelAwayGoal t) = .ok s := by
  constructor
  · rw [updateMatchResult_home]
    show updateMatchResult mid Event.CancelHomeGoal (s ++ ['H']) = .ok s
    rw [updateMatchResult_cancelHome, cancelHomeGoal_eq,
      specCancelIndex_concat 'H' (by decide)]
    show Except.ok (List.take s.length (s ++ ['H']) ++
      List.drop (s.length + 1) (s ++ ['H'])) = Except.ok s
    rw [List.take_left, List.drop_eq_nil_of_le (by simp)]
    simp
  · rw [updateMatchResult_away]
    show updateMatchResult mid Event.CancelAwayGoal (s ++ ['A']) = .ok s
    rw [updateMatchResult_cancelAway, cancelAwayGoal_eq,
      specCancelIndex_concat 'A' (by decide)]
    show Except.ok (List.take s.length (s ++ ['A']) ++
      List.drop (s.length + 1) (s ++ ['A'])) = Except.ok s
    rw [List.take_left, List.drop_eq_nil_of_le (by simp)]
    simp

/-- Witness for C8 at the concrete input `"HA"`. -/
theorem claim_C8_witness :
    (['H', 'A'] : List Char).getLast? ≠ some ';' ∧
    (updateMatchResult 0 Event.HomeGoal ['H', 'A']).bind
        (fun t => updateMatchResult 0 Event.CancelHomeGoal t) = .ok ['H', 'A'] :=
  ⟨by decide, (claim_C8 0 ['H', 'A'] (by decide)).1⟩

/-- C9: `NextPeriod` appends `;` when no `;` is present and is a no-op
otherwise; applying it twice equals applying it once (idempotent), and
`applyEvent("HHA;A", NextPeriod) == "HHA;A"`. -/
theorem claim_C9 (mid : Int) (s : List Char) :
    (';' ∉ s → updateMatchResult mid Event.NextPeriod s = .ok (s ++ [';'])) ∧
    (';' ∈ s → updateMatchResult mid Event.NextPeriod s = .ok s) ∧
    (updateMatchResult mid Event.NextPeriod s).bind
        (fun t => updateMatchResult mid Event.NextPeriod t) =
      updateMatchResult mid Event.NextPeriod s ∧
    updateMatchResult mid Event.NextPeriod ['H', 'H', 'A', ';', 'A'] =
      .ok ['H', 'H', 'A', ';', 'A'] := by
  refine ⟨fun hn => ?_, fun hm => ?_, ?_, rfl⟩
  · rw [updateMatchResult_next, if_neg hn]
  · rw [updateMatchResult_next, if_pos hm]
  · by_cases hm : ';' ∈ s
    · rw [updateMatchResult_next, if_pos hm]
      show updateMatchResult mid Event.NextPeriod s = _
      rw [updateMatchResult_next, if_pos hm]
    · rw [updateMatchResult_next, if_neg hm]
      show updateMatchResult mid Event.NextPeriod (s ++ [';']) = _
      rw [updateMatchResult_next, if_pos (by simp)]

/-- Witness for C9 at the concrete input `"H"` (no `;` present). -/
theorem claim_C9_witness :
    ';' ∉ (['H'] : List Char) ∧
    updateMatchResult 0 Event.NextPeriod ['H'] = .ok (['H'] ++ [';']) :=
  ⟨by decide, (claim_C9 0 ['H']).1 (by decide)⟩

/-! ### Budget-side helper lemmas -/

theorem daysInMonth_bounds (y m : Nat) :
    28 ≤ daysInMonth y m ∧ daysInMonth y m ≤ 31 := by
  unfold daysInMonth
  split_ifs <;> omega

theorem daysOfBudget_eq (b : Budget) :
    b.daysOfBudget = (daysInMonth b.year b.month : Int) := by
  unfold Budget.daysOfBudget Budget.lastDay Budget.firstDay dayNumber
  ring

theorem daysOfBudget_pos (b : Budget) : 0 < b.daysOfBudget := by
  rw [daysOfBudget_eq]
  have := daysInMonth_bounds b.year b.month
  omega

theorem firstDay_le_lastDay (b : Budget) : b.firstDay ≤ b.lastDay := by
  unfold Budget.firstDay Budget.lastDay dayNumber
  have := daysInMonth_bounds b.year b.month
  omega

theorem foldl_add_eq_sum (l : List ℚ) :
    ∀ a : ℚ, l.foldl (fun sum amount => sum + amount) a = a + l.sum := by
  induction l with
  | nil => intro a; simp
  | cons x xs ih =>
    intro a
    simp only [List.foldl_cons, List.sum_cons, ih]
    ring

/-- C3: `overlappingDays` of two periods is 0 when `max` of the starts exceeds
`min` of the ends, and otherwise the inclusive day count
`min(ends) - max(starts) + 1`; the result is never negative; and the
budget-month variant (`Period.ts`) agrees with the period-pair variant on the
budget's month period. -/
theorem claim_C3 (A B : Period) (hA : A.start ≤ A.endD) (hB : B.start ≤ B.endD) :
    (max A.start B.start > min A.endD B.endD → A.overlappingDay B = 0) ∧
    (max A.start B.start ≤ min A.endD B.endD →
      A.overlappingDay B = min A.endD B.endD - max A.start B.start + 1) ∧
    0 ≤ A.overlappingDay B ∧
    ∀ b : Budget, A.overlappingDays b = A.overlappingDay b.monthPeriod := by
  refine ⟨?_, ?_, ?_, fun b => rfl⟩ <;>
    (unfold Period.overlappingDay; split_ifs <;> omega)

/-- Witness for C3 at the concrete periods `[0, 5]` and `[3, 9]`. -/
theorem claim_C3_witness :
    (max (Period.mk 0 5).start (Period.mk 3 9).start >
        min (Period.mk 0 5).endD (Period.mk 3 9).endD →
      (Period.mk 0 5).overlappingDay (Period.mk 3 9) = 0) ∧
    (max (Period.mk 0 5).start (Period.mk 3 9).start ≤
        min (Period.mk 0 5).endD (Period.mk 3 9).endD →
      (Period.mk 0 5).overlappingDay (Period.mk 3 9) =
        min (Period.mk 0 5).endD (Period.mk 3 9).endD -
          max (Period.mk 0 5).start (Period.mk 3 9).start + 1) ∧
    0 ≤ (Period.mk 0 5).overlappingDay (Period.mk 3 9) ∧
    ∀ b : Budget, (Period.mk 0 5).overlappingDays b =
      (Period.mk 0 5).overlappingDay b.monthPeriod :=
  claim_C3 ⟨0, 5⟩ ⟨3, 9⟩ (by norm_num) (by norm_num)

/-- C4: for a valid budget, `dailyAmount` is the amount divided (in rational
arithmetic) by the calendar day count of the month, which lies between 28 and
31 and is computed from month and leap year. -/
theorem claim_C4 (b : Budget) (hb : b.Valid) :
    b.dailyAmount = (b.amount : ℚ) / ((daysInMonth b.year b.month : Nat) : ℚ) ∧
    28 ≤ daysInMonth b.year b.month ∧ daysInMonth b.year b.month ≤ 31 := by
  refine ⟨?_, (daysInMonth_bounds _ _).1, (daysInMonth_bounds _ _).2⟩
  unfold Budget.dailyAmount
  rw [daysOfBudget_eq]
  norm_num

/-- Witness for C4 at the concrete budget (202508, 310). -/
theorem claim_C4_witness :
    Budget.Valid ⟨2025, 8, 310⟩ ∧
    (Budget.dailyAmount ⟨2025, 8, 310⟩ =
        ((Budget.mk 2025 8 310).amount : ℚ) / ((daysInMonth 2025 8 : Nat) : ℚ) ∧
      28 ≤ daysInMonth 2025 8 ∧ daysInMonth 2025 8 ≤ 31) :=
  ⟨by decide, claim_C4 ⟨2025, 8, 310⟩ (by decide)⟩

/-- C5: for a valid query range, `QueryTotalAmount` is exactly the arithmetic
sum over the budget list of the per-budget `overlappingAmount`, and permuting
the budget list does not change the result. -/
theorem claim_C5 (budgets : List Budget) (qs qe : Int) :
    (qs ≤ qe → QueryTotalAmount budgets qs qe =
      .ok ((budgets.map (fun b => b.overlappingAmount (Period.new qs qe))).sum)) ∧
    ∀ budgets' : List Budget, budgets.Perm budgets' →
      QueryTotalAmount budgets qs qe = QueryTotalAmount budgets' qs qe := by
  constructor
  · intro hq
    unfold QueryTotalAmount
    rw [if_neg (by omega), foldl_add_eq_sum]
    rw [zero_add]
  · intro budgets' hp
    unfold QueryTotalAmount
    split_ifs
    · rfl
    · rw [foldl_add_eq_sum, foldl_add_eq_sum,
        (hp.map (fun b => b.overlappingAmount (Period.new qs qe))).sum_eq]

/-- Witness for C5: the spec's Example 4 budgets in both orders. -/
theorem claim_C5_witness :
    QueryTotalAmount [⟨2025, 7, 3100⟩, ⟨2025, 8, 310⟩]
        (dayNumber 2025 7 30) (dayNumber 2025 8 14) =
      .ok (([⟨2025, 7, 3100⟩, (⟨2025, 8, 310⟩ : Budget)].map
        (fun b => b.overlappingAmount
          (Period.new (dayNumber 2025 7 30) (dayNumber 2025 8 14)))).sum) ∧
    QueryTotalAmount [⟨2025, 7, 3100⟩, ⟨2025, 8, 310⟩]
        (dayNumber 2025 7 30) (dayNumber 2025 8 14) =
      QueryTotalAmount [⟨2025, 8, 310⟩, ⟨2025, 7, 3100⟩]
        (dayNumber 2025 7 30) (dayNumber 2025 8 14) :=
  ⟨(claim_C5 [⟨2025, 7, 3100⟩, ⟨2025, 8, 310⟩] _ _).1 (by decide),
    (claim_C5 [⟨2025, 7, 3100⟩, ⟨2025, 8, 310⟩] _ _).2
      [⟨2025, 8, 310⟩, ⟨2025, 7, 3100⟩] (List.Perm.swap _ _ _)⟩

/-- C6 counterexample: the `Period.ts` constructor silently accepts an
inverted range — `new Period(5, 3)` is constructed with `start > end` instead
of failing, so "constructing a Period with start after end fails" is false
for the `Period` class the budget engine uses. -/
theorem claim_C6_counterexample :
    (Period.new 5 3).start = 5 ∧ (Period.new 5 3).endD = 3 ∧
    ¬ (Period.new 5 3).start ≤ (Period.new 5 3).endD :=
  ⟨rfl, rfl, by norm_num [Period.new]⟩

/-- C6 amended: the `Period.ts` constructor stores any pair unvalidated (so
Period values with start > end exist); the second `Period` class in the
repository does enforce `start <= end` at construction; and
`QueryTotalAmount` rejects an inverted query range up front with an error,
before any summation. -/
theorem claim_C6_amended (s e : Int) :
    ((Period.new s e).start = s ∧ (Period.new s e).endD = e) ∧
    (e < s → Period.make s e =
        .error "Invalid period: start date must be before or equal to end date" ∧
      ∀ budgets : List Budget, QueryTotalAmount budgets s e =
        .error "Invalid date range: start date must be before or equal to end date") ∧
    (s ≤ e → Period.make s e = .ok ⟨s, e⟩) := by
  refine ⟨⟨rfl, rfl⟩, fun h => ⟨?_, fun budgets => ?_⟩, fun h => ?_⟩
  · unfold Period.make
    rw [if_pos h]
  · unfold QueryTotalAmount
    rw [if_pos h]
  · unfold Period.make
    rw [if_neg (by omega)]

/-- Witness for C6 amended, at the inverted range (5, 3). -/
theorem claim_C6_witness :
    Period.make 5 3 =
      .error "Invalid period: start date must be before or equal to end date" ∧
    QueryTotalAmount [] 5 3 =
      .error "Invalid date range: start date must be before or equal to end date" :=
  ⟨((claim_C6_amended 5 3).2.1 (by norm_num)).1,
    ((claim_C6_amended 5 3).2.1 (by norm_num)).2 []⟩

/-- C10: a query period fully containing the budget's calendar month yields
the whole budget amount exactly, in rational arithmetic: the overlap is the
full month, so `dailyAmount * overlap = Amount` with no proration loss. -/
theorem claim_C10 (b : Budget) (p : Period) (hb : b.Valid)
    (h1 : p.start ≤ b.firstDay) (h2 : b.lastDay ≤ p.endD) :
    b.overlappingAmount p = (b.amount : ℚ) := by
  have hfl := firstDay_le_lastDay b
  have hdays : p.overlappingDays b = b.daysOfBudget := by
    unfold Period.overlappingDays Budget.daysOfBudget
    split_ifs <;> omega
  unfold Budget.overlappingAmount
  rw [hdays]
  unfold Budget.dailyAmount
  rw [div_mul_cancel₀]
  rw [Int.cast_ne_zero]
  have := daysOfBudget_pos b
  omega

/-- Witness for C10: July 2025 fully contained in the query period of
Example 4 extended to cover the whole month. -/
theorem claim_C10_witness :
    Budget.Valid ⟨2025, 7, 3100⟩ ∧
    (Budget.mk 2025 7 3100).overlappingAmount
        (Period.mk (dayNumber 2025 6 20) (dayNumber 2025 8 14)) =
      ((Budget.mk 2025 7 3100).amount : ℚ) :=
  ⟨by decide,
    claim_C10 ⟨2025, 7, 3100⟩ ⟨dayNumber 2025 6 20, dayNumber 2025 8 14⟩
      (by decide) (by decide) (by decide)⟩

end MatchScore
